import Mathlib

/-!
Shallow embedding of the social-graph persistence layer in `src/neo4j.ts`.

The TypeScript module is a thin wrapper over Cypher queries against a Neo4j
property graph.  We embed the graph state explicitly (user nodes with their
stored attributes, plus the two directed edge lists) and give each exported
function its Cypher semantics:

* `MERGE (user:User \x7b user_id \x7d) ON CREATE SET ...` — find-or-create by
  `user_id`; attributes are written only in the create branch.
* `MATCH a MATCH b MERGE (a)-[op:T]->(b) RETURN op` — rows are the matches of
  the two `MATCH` clauses; with no match the `MERGE` never runs and the
  result cursor is empty; otherwise the edge is found-or-created and one
  `op` record is returned per row.
* read queries — rows are the matches of the pattern; `ORDER BY x.user_id`
  sorts, `SKIP`/`LIMIT` are `List.drop`/`List.take`; `count(op)` returns the
  number of rows of the same pattern.

Edges are stored as ordered pairs of `user_id`s: a `FOLLOWS` edge
`(a, b)` means node `a` follows node `b`, and an `INVITED_BY_USER` edge
`(u, i)` means user `u` was invited by user `i` (the edge points from the
invited user to the inviter, exactly as the Cypher
`MERGE (userB)-[op:INVITED_BY_USER]->(userA)` does).

All operations are total Lean functions: the layer raises no errors of its
own (§7 of the spec); a missing endpoint shows up only as an empty record
list.  Query-text construction (which the injection claims are about) is
modelled separately by `CypherQuery` builders that mirror the TypeScript
template literals chunk for chunk.
-/

namespace Clubhouse

/-- Modelled from the spec: the inbound user-profile shape
(`SocialGraphUserProfile` from `src/types.ts`, which is not under `src/`);
fields are the attribute list of §3 of the spec: identity key `user_id`
(integer), free-text fields, integer follower-count snapshots, a timestamp
string and a boolean block flag. -/
structure SocialGraphUserProfile where
  user_id : Int
  name : String
  photo_url : String
  username : String
  twitter : String
  bio : String
  displayname : String
  instagram : String
  num_followers : Int
  num_following : Int
  time_created : String
  is_blocked_by_network : Bool
deriving DecidableEq

/-- The property-graph state: stored user nodes (attributes as persisted),
`FOLLOWS` edges `(follower_id, followed_id)` and `INVITED_BY_USER` edges
`(invited_user_id, inviter_id)`. -/
structure GraphState where
  nodes : List SocialGraphUserProfile
  follows : List (Int × Int)
  invited_by : List (Int × Int)
deriving DecidableEq

/-- The empty graph. -/
def emptyGraph : GraphState := { nodes := [], follows := [], invited_by := [] }

/-- `MATCH (u:User \x7b user_id: toInteger($id) \x7d)` succeeds iff some stored
node carries that `user_id`. -/
def hasNode (g : GraphState) (id : Int) : Bool :=
  g.nodes.any (fun n => n.user_id == id)

/-- The attribute record actually persisted by `upsertUser`: the caller's
profile with `bio` passed through the external `sanitize` collaborator
(`src/utils.ts`, not under `src/`; the spec says only that it is a total
text-to-text function, so it is a parameter here). -/
def storedProfile (sanitize : String → String) (user : SocialGraphUserProfile) :
    SocialGraphUserProfile :=
  { user with bio := sanitize user.bio }

/-- `upsertUser` (src/neo4j.ts:23-47).  Cypher
`MERGE (user:User \x7b user_id \x7d) ON CREATE SET <all attributes>;`.
If a node with this `user_id` exists the merge matches and the
`ON CREATE SET` branch is skipped, so the state is unchanged; otherwise one
node is created with every attribute set (bio sanitized).  The query has no
`RETURN` clause, so the result cursor carries zero records in both branches
(record type `Unit`). -/
def upsertUser (sanitize : String → String) (g : GraphState)
    (user : SocialGraphUserProfile) : GraphState × List Unit :=
  if hasNode g user.user_id then (g, [])
  else ({ g with nodes := g.nodes ++ [storedProfile sanitize user] }, [])

/-- `upsertFollowsRelationship` (src/neo4j.ts:49-65).  Cypher
`MATCH userA MATCH userB MERGE (userA)-[op:FOLLOWS]->(userB) RETURN op;`.
If either endpoint is missing there are no rows: no edge is created and the
cursor is empty.  Otherwise the edge is found-or-created and the single
`op` row is returned. -/
def upsertFollowsRelationship (g : GraphState) (follower_id user_id : Int) :
    GraphState × List (Int × Int) :=
  if hasNode g follower_id && hasNode g user_id then
    if (follower_id, user_id) ∈ g.follows then (g, [(follower_id, user_id)])
    else ({ g with follows := g.follows ++ [(follower_id, user_id)] },
          [(follower_id, user_id)])
  else (g, [])

/-- `upsertInvitedByUserRelationship` (src/neo4j.ts:67-83).  Cypher
`MATCH userA MATCH userB MERGE (userB)-[op:INVITED_BY_USER]->(userA) RETURN op;`
where `userA` is the inviter (`invited_by_user_profile_id`) and `userB` the
invited user (`user_id`): the stored edge is `(user_id, inviter_id)`. -/
def upsertInvitedByUserRelationship (g : GraphState)
    (invited_by_user_profile_id user_id : Int) :
    GraphState × List (Int × Int) :=
  if hasNode g invited_by_user_profile_id && hasNode g user_id then
    if (user_id, invited_by_user_profile_id) ∈ g.invited_by then
      (g, [(user_id, invited_by_user_profile_id)])
    else ({ g with invited_by :=
              g.invited_by ++ [(user_id, invited_by_user_profile_id)] },
          [(user_id, invited_by_user_profile_id)])
  else (g, [])

/-- Rows of `MATCH (follower:User)-[op:FOLLOWS]->(u:User \x7b user_id \x7d)`:
one row per `FOLLOWS` edge into `u`, carrying the follower node.  The
pattern needs the target node `u` to exist and resolves each follower id to
its stored node. -/
def followerRows (g : GraphState) (userId : Int) : List SocialGraphUserProfile :=
  if hasNode g userId then
    ((g.follows.filter (fun e => e.2 == userId)).map (fun e => e.1)).filterMap
      (fun fid => g.nodes.find? (fun n => n.user_id == fid))
  else []

/-- Rows of `MATCH (u:User \x7b user_id \x7d)-[op:FOLLOWS]->(following:User)`:
one row per `FOLLOWS` edge out of `u`, carrying the followed node. -/
def followingRows (g : GraphState) (userId : Int) : List SocialGraphUserProfile :=
  if hasNode g userId then
    ((g.follows.filter (fun e => e.1 == userId)).map (fun e => e.2)).filterMap
      (fun fid => g.nodes.find? (fun n => n.user_id == fid))
  else []

/-- Rows of `MATCH (user:User)-[op:INVITED_BY_USER]->(u:User \x7b user_id \x7d)`:
one row per `INVITED_BY_USER` edge pointing at inviter `u`, i.e. one row per
user invited by `u`. -/
def invitedRows (g : GraphState) (userId : Int) : List SocialGraphUserProfile :=
  if hasNode g userId then
    ((g.invited_by.filter (fun e => e.2 == userId)).map (fun e => e.1)).filterMap
      (fun iid => g.nodes.find? (fun n => n.user_id == iid))
  else []

/-- Rows of `MATCH (u:User \x7b user_id \x7d)-[op:INVITED_BY_USER]->(user:User)`:
one row per `INVITED_BY_USER` edge out of `u`, i.e. one row per inviter
recorded for `u`. -/
def inviterRows (g : GraphState) (userId : Int) : List SocialGraphUserProfile :=
  if hasNode g userId then
    ((g.invited_by.filter (fun e => e.1 == userId)).map (fun e => e.2)).filterMap
      (fun iid => g.nodes.find? (fun n => n.user_id == iid))
  else []

/-- Ordering used by `ORDER BY x.user_id`: ascending stored `user_id`. -/
def userIdLe (a b : SocialGraphUserProfile) : Prop :=
  a.user_id ≤ b.user_id

instance : DecidableRel userIdLe := fun a b => Int.decLe a.user_id b.user_id

instance : IsTotal SocialGraphUserProfile userIdLe :=
  ⟨fun a b => Int.le_total a.user_id b.user_id⟩

instance : IsTrans SocialGraphUserProfile userIdLe :=
  ⟨fun _ _ _ h1 h2 => le_trans h1 h2⟩

/-- `ORDER BY x.user_id SKIP skip LIMIT limit` applied to a row list. -/
def paginate (rows : List SocialGraphUserProfile) (limit skip : Nat) :
    List SocialGraphUserProfile :=
  ((List.insertionSort userIdLe rows).drop skip).take limit

/-- `getUserFollowersById` (src/neo4j.ts:97-118): follower page, ascending
`user_id`, `SKIP skip LIMIT limit`. -/
def getUserFollowersById (g : GraphState) (userId : Int) (limit skip : Nat) :
    List SocialGraphUserProfile :=
  paginate (followerRows g userId) limit skip

/-- `getUserFollowersById` with `limit` and `skip` omitted: the TypeScript
defaults are `limit = 1000`, `skip = 0`. -/
def getUserFollowersByIdDefault (g : GraphState) (userId : Int) :
    List SocialGraphUserProfile :=
  getUserFollowersById g userId 1000 0

/-- `getFollowingUsersById` (src/neo4j.ts:120-141). -/
def getFollowingUsersById (g : GraphState) (userId : Int) (limit skip : Nat) :
    List SocialGraphUserProfile :=
  paginate (followingRows g userId) limit skip

/-- `getFollowingUsersById` with the TypeScript defaults `1000`/`0`. -/
def getFollowingUsersByIdDefault (g : GraphState) (userId : Int) :
    List SocialGraphUserProfile :=
  getFollowingUsersById g userId 1000 0

/-- `getUsersInvitedById` (src/neo4j.ts:223-244): page of users invited by
`userId`, ascending `user_id`. -/
def getUsersInvitedById (g : GraphState) (userId : Int) (limit skip : Nat) :
    List SocialGraphUserProfile :=
  paginate (invitedRows g userId) limit skip

/-- `getNumFollowersById` (src/neo4j.ts:143-154): `count(op)` over the same
`MATCH` pattern as `getUserFollowersById`, i.e. the number of rows. -/
def getNumFollowersById (g : GraphState) (userId : Int) : Nat :=
  (followerRows g userId).length

/-- `getNumFollowingById` (src/neo4j.ts:156-167). -/
def getNumFollowingById (g : GraphState) (userId : Int) : Nat :=
  (followingRows g userId).length

/-- `getNumUsersInvitedById` (src/neo4j.ts:196-207): `count(op)` over
`MATCH (user:User)-[op:INVITED_BY_USER]->(u:User \x7b user_id \x7d)` — the
number of `INVITED_BY_USER` edges arriving at node `userId`, i.e. the number
of users invited by `userId`. -/
def getNumUsersInvitedById (g : GraphState) (userId : Int) : Nat :=
  (invitedRows g userId).length

/-- `getNumInvitesForUserById` (src/neo4j.ts:209-221): `count(op)` over
`MATCH (u:User \x7b user_id \x7d)-[op:INVITED_BY_USER]->(user:User)` — the
number of `INVITED_BY_USER` edges leaving node `userId`, i.e. the number of
inviters recorded for `userId`. -/
def getNumInvitesForUserById (g : GraphState) (userId : Int) : Nat :=
  (inviterRows g userId).length

/-- `getNumUsers` (src/neo4j.ts:169-176): global node count. -/
def getNumUsers (g : GraphState) : Nat :=
  g.nodes.length

/-- Spec-worded variant of `getNumUsersInvitedById`, for comparison only.
The spec (§4.4) describes the value as the "outgoing-edge count at the
inviter": the number of `INVITED_BY_USER` edges leaving node `userId`. -/
def specOutgoingInvitedCount (g : GraphState) (userId : Int) : Nat :=
  (g.invited_by.filter (fun e => e.1 == userId)).length

/-- `isEncrypted` inside `driver` (src/neo4j.ts:8-21):
`!!neo4jEncryptedConnection && neo4jEncryptedConnection !== 'false'`.
An absent environment variable is `none`; JavaScript `!!s` is `false`
exactly for `undefined` and the empty string. -/
def isEncrypted (neo4jEncryptedConnection : Option String) : Bool :=
  match neo4jEncryptedConnection with
  | none => false
  | some s => !(s == "") && !(s == "false")

/-- The `encrypted` driver option chosen by `driver`:
`isEncrypted ? 'ENCRYPTION_ON' : 'ENCRYPTION_OFF'`. -/
def driverEncryptedOption (neo4jEncryptedConnection : Option String) : String :=
  if isEncrypted neo4jEncryptedConnection then "ENCRYPTION_ON"
  else "ENCRYPTION_OFF"

/-- One write operation of this layer, for reachability of graph states. -/
inductive Op where
  | user (p : SocialGraphUserProfile)
  | follows (follower_id user_id : Int)
  | invited (invited_by_user_profile_id user_id : Int)
deriving DecidableEq

/-- The state transition of one write operation. -/
def applyOp (sanitize : String → String) (g : GraphState) : Op → GraphState
  | Op.user p => (upsertUser sanitize g p).1
  | Op.follows a b => (upsertFollowsRelationship g a b).1
  | Op.invited i u => (upsertInvitedByUserRelationship g i u).1

/-- Run a sequence of write operations from a given state. -/
def runOpsFrom (sanitize : String → String) (g : GraphState) (ops : List Op) :
    GraphState :=
  ops.foldl (applyOp sanitize) g

/-- Run a sequence of write operations from the empty graph. -/
def runOps (sanitize : String → String) (ops : List Op) : GraphState :=
  runOpsFrom sanitize emptyGraph ops

/-- A graph state reachable from the empty graph using only this layer's
write operations (for some sanitizer). -/
def Reachable (g : GraphState) : Prop :=
  ∃ sanitize ops, g = runOps sanitize ops

/-- A sequence of `upsertUser` calls, state only. -/
def runUserOps (sanitize : String → String) (ps : List SocialGraphUserProfile) :
    GraphState :=
  runOps sanitize (ps.map Op.user)

/-- `n` repeated `upsertFollowsRelationship g a b` calls, state only. -/
def applyFollowsN (g : GraphState) (a b : Int) : Nat → GraphState
  | 0 => g
  | n + 1 => (upsertFollowsRelationship (applyFollowsN g a b n) a b).1

/-- `n` repeated `upsertInvitedByUserRelationship g i u` calls, state only. -/
def applyInvitedN (g : GraphState) (i u : Int) : Nat → GraphState
  | 0 => g
  | n + 1 => (upsertInvitedByUserRelationship (applyInvitedN g i u n) i u).1

/-- A query as handed to `tx.run`: the generated text and the bound
parameter map (values rendered as strings: non-string fields are only ever
compared for presence here). -/
structure CypherQuery where
  text : String
  params : List (String × String)
deriving DecidableEq

/-- The fixed query text of `upsertUser` (src/neo4j.ts:28-41); the template
literal has no interpolation, so the text is a constant. -/
def upsertUserQueryText : String :=
  "\n      MERGE (user:User \x7b user_id: toInteger($user_id) \x7d)\n        ON CREATE SET user.name = $name,\n          user.photo_url = $photo_url,\n          user.username = $username,\n          user.twitter = $twitter,\n          user.bio = $bio,\n          user.displayname = $displayname,\n          user.instagram = $instagram,\n          user.num_followers = toInteger($num_followers),\n          user.num_following = toInteger($num_following),\n          user.time_created = datetime($time_created),\n          user.is_blocked_by_network = $is_blocked_by_network;\n    "

/-- The query issued by `upsertUser`: constant text, all profile fields
value-bound with `bio` sanitized (`\x7b ...user, bio: sanitize(user.bio) \x7d`). -/
def upsertUserQuery (sanitize : String → String)
    (user : SocialGraphUserProfile) : CypherQuery :=
  { text := upsertUserQueryText,
    params := [("user_id", toString user.user_id),
               ("name", user.name),
               ("photo_url", user.photo_url),
               ("username", user.username),
               ("twitter", user.twitter),
               ("bio", sanitize user.bio),
               ("displayname", user.displayname),
               ("instagram", user.instagram),
               ("num_followers", toString user.num_followers),
               ("num_following", toString user.num_following),
               ("time_created", user.time_created),
               ("is_blocked_by_network", toString user.is_blocked_by_network)] }

/-- Template chunk of `getUserFollowersById` before `${skip}`. -/
def followersQueryPre : String :=
  "\n      MATCH (follower:User)-[op:FOLLOWS]->(u:User \x7b user_id: toInteger($userId) \x7d)\n      RETURN follower\n      ORDER BY follower.user_id\n      SKIP "

/-- Template chunk of `getFollowingUsersById` before `${skip}`. -/
def followingQueryPre : String :=
  "\n      MATCH (u:User \x7b user_id: toInteger($userId) \x7d)-[op:FOLLOWS]->(following:User)\n      RETURN following\n      ORDER BY following.user_id\n      SKIP "

/-- Template chunk of `getUsersInvitedById` before `${skip}`. -/
def invitedQueryPre : String :=
  "\n      MATCH (user:User)-[op:INVITED_BY_USER]->(u:User \x7b user_id: toInteger($userId) \x7d)\n      RETURN user\n      ORDER BY user.user_id\n      SKIP "

/-- Template chunk between `${skip}` and `${limit}` (shared by the three
paginated queries). -/
def skipLimitSep : String := "\n      LIMIT "

/-- Template chunk after `${limit}` (shared by the three paginated queries). -/
def queryTail : String := "\n    "

/-- The query issued by `getUserFollowersById` (src/neo4j.ts:108-117):
`skip` and `limit` are string-interpolated into the text (`${skip}`,
`${limit}`), while `userId` is value-bound.  The function is total on all
integers: no non-negativity validation happens in this layer. -/
def getUserFollowersByIdQuery (userId : String) (limit skip : Int) :
    CypherQuery :=
  { text := followersQueryPre ++ toString skip ++ skipLimitSep
              ++ toString limit ++ queryTail,
    params := [("userId", userId)] }

/-- The query issued by `getFollowingUsersById` (src/neo4j.ts:131-140). -/
def getFollowingUsersByIdQuery (userId : String) (limit skip : Int) :
    CypherQuery :=
  { text := followingQueryPre ++ toString skip ++ skipLimitSep
              ++ toString limit ++ queryTail,
    params := [("userId", userId)] }

/-- The query issued by `getUsersInvitedById` (src/neo4j.ts:234-243). -/
def getUsersInvitedByIdQuery (userId : String) (limit skip : Int) :
    CypherQuery :=
  { text := invitedQueryPre ++ toString skip ++ skipLimitSep
              ++ toString limit ++ queryTail,
    params := [("userId", userId)] }

/-! ### Shared invariants and helper lemmas -/

/-- Well-formedness that every state reachable through this layer enjoys:
node ids are unique, each edge list is duplicate-free, and every edge
endpoint is an existing node. -/
def Invariant (g : GraphState) : Prop :=
  (g.nodes.map (fun n => n.user_id)).Nodup ∧
  g.follows.Nodup ∧
  g.invited_by.Nodup ∧
  (∀ e ∈ g.follows, hasNode g e.1 = true ∧ hasNode g e.2 = true) ∧
  (∀ e ∈ g.invited_by, hasNode g e.1 = true ∧ hasNode g e.2 = true)

theorem storedProfile_user_id (sanitize : String → String)
    (p : SocialGraphUserProfile) :
    (storedProfile sanitize p).user_id = p.user_id := rfl

theorem hasNode_iff {g : GraphState} {id : Int} :
    hasNode g id = true ↔ ∃ n ∈ g.nodes, n.user_id = id := by
  simp [hasNode, List.any_eq_true]

theorem hasNode_append {g : GraphState} {l : List SocialGraphUserProfile}
    {id : Int} :
    hasNode { g with nodes := g.nodes ++ l } id
      = (hasNode g id || l.any (fun n => n.user_id == id)) := by
  simp [hasNode]

theorem upsertFollowsRelationship_nodes (g : GraphState) (a b : Int) :
    ((upsertFollowsRelationship g a b).1).nodes = g.nodes := by
  unfold upsertFollowsRelationship
  split <;> [skip; rfl]
  split <;> rfl

theorem upsertInvitedByUserRelationship_nodes (g : GraphState) (i u : Int) :
    ((upsertInvitedByUserRelationship g i u).1).nodes = g.nodes := by
  unfold upsertInvitedByUserRelationship
  split <;> [skip; rfl]
  split <;> rfl

theorem hasNode_congr {g₁ g₂ : GraphState} (h : g₁.nodes = g₂.nodes)
    (id : Int) : hasNode g₁ id = hasNode g₂ id := by
  simp [hasNode, h]

theorem invariant_emptyGraph : Invariant emptyGraph := by
  refine ⟨?_, ?_, ?_, ?_, ?_⟩ <;> simp [emptyGraph, Invariant]

theorem invariant_upsertUser (sanitize : String → String) {g : GraphState}
    (p : SocialGraphUserProfile) (hg : Invariant g) :
    Invariant (upsertUser sanitize g p).1 := by
  obtain ⟨hn, hf, hi, hef, hei⟩ := hg
  unfold upsertUser
  split
  · exact ⟨hn, hf, hi, hef, hei⟩
  · rename_i habs
    refine ⟨?_, hf, hi, ?_, ?_⟩
    · simp only [List.map_append, List.map_cons, List.map_nil]
      rw [List.nodup_append]
      refine ⟨hn, List.nodup_singleton _, ?_⟩
      intro x hx hx'
      simp only [storedProfile, List.mem_singleton, List.mem_map] at hx hx'
      obtain ⟨n, hmem, hid⟩ := hx
      apply habs
      rw [hasNode_iff]
      exact ⟨n, hmem, by simp [hx'] at hid ⊢; exact hid⟩
    · intro e he
      have := hef e he
      constructor <;> [rw [hasNode_append]; rw [hasNode_append]] <;>
        simp [this.1, this.2]
    · intro e he
      have := hei e he
      constructor <;> [rw [hasNode_append]; rw [hasNode_append]] <;>
        simp [this.1, this.2]

theorem invariant_upsertFollowsRelationship {g : GraphState} (a b : Int)
    (hg : Invariant g) : Invariant (upsertFollowsRelationship g a b).1 := by
  obtain ⟨hn, hf, hi, hef, hei⟩ := hg
  unfold upsertFollowsRelationship
  split
  · rename_i hab
    rw [Bool.and_eq_true] at hab
    split
    · exact ⟨hn, hf, hi, hef, hei⟩
    · rename_i hnotmem
      refine ⟨hn, ?_, hi, ?_, hei⟩
      · rw [List.nodup_append]
        exact ⟨hf, List.nodup_singleton _, by
          intro x hx hx'
          simp only [List.mem_singleton] at hx'
          subst hx'
          exact hnotmem hx⟩
      · intro e he
        rw [List.mem_append, List.mem_singleton] at he
        rcases he with he | he
        · exact hef e he
        · subst he
          exact ⟨hab.1, hab.2⟩
  · exact ⟨hn, hf, hi, hef, hei⟩

theorem invariant_upsertInvitedByUserRelationship {g : GraphState} (i u : Int)
    (hg : Invariant g) :
    Invariant (upsertInvitedByUserRelationship g i u).1 := by
  obtain ⟨hn, hf, hi', hef, hei⟩ := hg
  unfold upsertInvitedByUserRelationship
  split
  · rename_i hab
    rw [Bool.and_eq_true] at hab
    split
    · exact ⟨hn, hf, hi', hef, hei⟩
    · rename_i hnotmem
      refine ⟨hn, hf, ?_, hef, ?_⟩
      · rw [List.nodup_append]
        exact ⟨hi', List.nodup_singleton _, by
          intro x hx hx'
          simp only [List.mem_singleton] at hx'
          subst hx'
          exact hnotmem hx⟩
      · intro e he
        rw [List.mem_append, List.mem_singleton] at he
        rcases he with he | he
        · exact hei e he
        · subst he
          exact ⟨hab.2, hab.1⟩
  · exact ⟨hn, hf, hi', hef, hei⟩

theorem invariant_applyOp (sanitize : String → String) {g : GraphState}
    (op : Op) (hg : Invariant g) : Invariant (applyOp sanitize g op) := by
  cases op with
  | user p => exact invariant_upsertUser sanitize p hg
  | follows a b => exact invariant_upsertFollowsRelationship a b hg
  | invited i u => exact invariant_upsertInvitedByUserRelationship i u hg

theorem invariant_runOpsFrom (sanitize : String → String) (ops : List Op)
    {g : GraphState} (hg : Invariant g) :
    Invariant (runOpsFrom sanitize g ops) := by
  induction ops generalizing g with
  | nil => exact hg
  | cons op ops ih =>
      exact ih (invariant_applyOp sanitize op hg)

theorem invariant_of_reachable {g : GraphState} (hg : Reachable g) :
    Invariant g := by
  obtain ⟨sanitize, ops, rfl⟩ := hg
  exact invariant_runOpsFrom sanitize ops invariant_emptyGraph

theorem nodup_fst_filter_snd {l : List (Int × Int)} (hl : l.Nodup) (u : Int) :
    ((l.filter (fun e => e.2 == u)).map (fun e => e.1)).Nodup := by
  refine List.Nodup.map_on ?_ (hl.filter _)
  intro x hx y hy hxy
  rw [List.mem_filter] at hx hy
  have hx2 : x.2 = u := by simpa using hx.2
  have hy2 : y.2 = u := by simpa using hy.2
  cases x
  cases y
  simp_all

theorem nodup_snd_filter_fst {l : List (Int × Int)} (hl : l.Nodup) (u : Int) :
    ((l.filter (fun e => e.1 == u)).map (fun e => e.2)).Nodup := by
  refine List.Nodup.map_on ?_ (hl.filter _)
  intro x hx y hy hxy
  rw [List.mem_filter] at hx hy
  have hx1 : x.1 = u := by simpa using hx.2
  have hy1 : y.1 = u := by simpa using hy.2
  cases x
  cases y
  simp_all

theorem nodup_resolveIds (nodesL : List SocialGraphUserProfile)
    {ids : List Int} (hids : ids.Nodup) :
    (ids.filterMap (fun i => nodesL.find? (fun n => n.user_id == i))).Nodup := by
  refine List.Nodup.filterMap ?_ hids
  intro a a' b hb hb'
  rw [Option.mem_def] at hb hb'
  have h1 : (b.user_id == a) = true := by
    simpa using List.find?_some hb
  have h2 : (b.user_id == a') = true := by
    simpa using List.find?_some hb'
  rw [beq_iff_eq] at h1 h2
  exact h1 ▸ h2

theorem length_filterMap_of_isSome {α β : Type} {f : α → Option β}
    {l : List α} (h : ∀ a ∈ l, (f a).isSome) :
    (l.filterMap f).length = l.length := by
  induction l with
  | nil => rfl
  | cons x l ih =>
      obtain ⟨b, hb⟩ := Option.isSome_iff_exists.mp (h x (List.mem_cons_self x l))
      rw [List.filterMap_cons, hb]
      simp [ih (fun a ha => h a (List.mem_cons_of_mem x ha))]

theorem filter_length_le_one_of_nodup_map {α β : Type} [DecidableEq β]
    {f : α → β} {l : List α} (hl : (l.map f).Nodup) (c : β) :
    (l.filter (fun x => f x == c)).length ≤ 1 := by
  induction l with
  | nil => simp
  | cons x l ih =>
      rw [List.map_cons, List.nodup_cons] at hl
      rw [List.filter_cons]
      split
      · rename_i hx
        have hempty : l.filter (fun y => f y == c) = [] := by
          rw [List.filter_eq_nil_iff]
          intro a ha hfa
          have hfa' : f a = c := by simpa using hfa
          have hx' : f x = c := by simpa using hx
          exact hl.1 (by
            rw [List.mem_map]
            exact ⟨a, ha, hfa'.trans hx'.symm⟩)
        simp [hempty]
      · exact le_trans (by simp) (ih hl.2)

theorem length_le_one_of_nodup_of_all_eq {α : Type} {l : List α}
    (hl : l.Nodup) (h : ∀ x ∈ l, ∀ y ∈ l, x = y) : l.length ≤ 1 := by
  match l with
  | [] => simp
  | [_] => simp
  | x :: y :: t =>
      exfalso
      rw [List.nodup_cons] at hl
      exact hl.1 (by
        rw [h x (by simp) y (by simp)]
        simp)

theorem upsertUser_invited_by (sanitize : String → String) (g : GraphState)
    (p : SocialGraphUserProfile) :
    ((upsertUser sanitize g p).1).invited_by = g.invited_by := by
  unfold upsertUser
  split <;> rfl

theorem upsertFollowsRelationship_invited_by (g : GraphState) (a b : Int) :
    ((upsertFollowsRelationship g a b).1).invited_by = g.invited_by := by
  unfold upsertFollowsRelationship
  split <;> [skip; rfl]
  split <;> rfl

theorem mem_upsertInvited_invited_by {g : GraphState} {i u : Int}
    {e : Int × Int}
    (h : e ∈ ((upsertInvitedByUserRelationship g i u).1).invited_by) :
    e ∈ g.invited_by ∨ e = (u, i) := by
  unfold upsertInvitedByUserRelationship at h
  split at h
  · split at h
    · exact Or.inl h
    · simp only [List.mem_append, List.mem_singleton] at h
      exact h
  · exact Or.inl h

theorem mem_invited_by_runOpsFrom (sanitize : String → String)
    (ops : List Op) {g : GraphState} {e : Int × Int}
    (he : e ∈ (runOpsFrom sanitize g ops).invited_by) :
    e ∈ g.invited_by ∨ Op.invited e.2 e.1 ∈ ops := by
  induction ops generalizing g with
  | nil => exact Or.inl he
  | cons op ops ih =>
      rcases ih he with h | h
      · cases op with
        | user p =>
            rw [applyOp, upsertUser_invited_by] at h
            exact Or.inl h
        | follows a b =>
            rw [applyOp, upsertFollowsRelationship_invited_by] at h
            exact Or.inl h
        | invited i u =>
            rcases mem_upsertInvited_invited_by h with h' | h'
            · exact Or.inl h'
            · refine Or.inr ?_
              rw [h']
              simp
      · exact Or.inr (List.mem_cons_of_mem _ h)

theorem runUserOps_eq_foldl (sanitize : String → String)
    (ps : List SocialGraphUserProfile) :
    runUserOps sanitize ps
      = ps.foldl (fun h p => (upsertUser sanitize h p).1) emptyGraph := by
  rw [runUserOps, runOps, runOpsFrom, List.foldl_map]
  rfl

theorem foldl_upsertUser_find? (sanitize : String → String)
    (ps : List SocialGraphUserProfile) (g : GraphState) (id : Int) :
    ((ps.foldl (fun h p => (upsertUser sanitize h p).1) g).nodes.find?
        (fun n => n.user_id == id))
      = ((g.nodes.find? (fun n => n.user_id == id)).or
          ((ps.find? (fun q => q.user_id == id)).map
            (storedProfile sanitize))) := by
  induction ps generalizing g with
  | nil => simp
  | cons p ps ih =>
      rw [List.foldl_cons, ih]
      by_cases hup : hasNode g p.user_id = true
      · have hg' : (upsertUser sanitize g p).1 = g := by
          simp [upsertUser, hup]
        rw [hg']
        by_cases hq : (p.user_id == id) = true
        · have hid : p.user_id = id := by simpa using hq
          subst hid
          have hsome : (g.nodes.find?
              (fun n => n.user_id == p.user_id)).isSome := by
            rw [List.find?_isSome]
            rw [hasNode_iff] at hup
            obtain ⟨n, hn, hid'⟩ := hup
            exact ⟨n, hn, by simp [hid']⟩
          obtain ⟨v, hv⟩ := Option.isSome_iff_exists.mp hsome
          rw [hv, List.find?_cons_of_pos _ (by simp)]
          simp
        · rw [List.find?_cons_of_neg _ (by simpa using hq)]
      · have hg' : (upsertUser sanitize g p).1
            = { g with nodes := g.nodes ++ [storedProfile sanitize p] } := by
          simp [upsertUser, hup]
        rw [hg']
        show ((g.nodes ++ [storedProfile sanitize p]).find? _).or _ = _
        rw [List.find?_append, Option.or_assoc]
        congr 1
        by_cases hq : (p.user_id == id) = true
        · have hrhs : List.find? (fun q => q.user_id == id) (p :: ps)
              = some p := List.find?_cons_of_pos _ hq
          rw [hrhs]
          have hone : List.find? (fun n => n.user_id == id)
              [storedProfile sanitize p] = some (storedProfile sanitize p) := by
            refine List.find?_cons_of_pos _ ?_
            simpa [storedProfile_user_id] using hq
          rw [hone]
          simp
        · have hrhs : List.find? (fun q => q.user_id == id) (p :: ps)
              = List.find? (fun q => q.user_id == id) ps :=
            List.find?_cons_of_neg _ (by simpa using hq)
          rw [hrhs]
          have hone : List.find? (fun n => n.user_id == id)
              [storedProfile sanitize p] = none := by
            rw [List.find?_eq_none]
            intro x hx
            rw [List.mem_singleton] at hx
            subst hx
            simpa [storedProfile_user_id] using hq
          rw [hone]
          simp

/-- Multiplicity of the FOLLOWS edge `(a, b)` in the graph. -/
def followsEdgeCount (g : GraphState) (a b : Int) : Nat :=
  (g.follows.filter (fun e => e == (a, b))).length

/-- Multiplicity of the INVITED_BY_USER edge `(u, i)` (user `u` invited by
`i`) in the graph. -/
def invitedEdgeCount (g : GraphState) (u i : Int) : Nat :=
  (g.invited_by.filter (fun e => e == (u, i))).length

theorem filter_beq_length_le_one {α : Type} [BEq α] [LawfulBEq α] {l : List α}
    (hl : l.Nodup) (c : α) : (l.filter (fun e => e == c)).length ≤ 1 := by
  apply length_le_one_of_nodup_of_all_eq (hl.filter _)
  intro x hx y hy
  rw [List.mem_filter] at hx hy
  have hx' : x = c := by simpa using hx.2
  have hy' : y = c := by simpa using hy.2
  rw [hx', hy']

theorem upsertFollows_of_mem {g : GraphState} {a b : Int}
    (ha : hasNode g a = true) (hb : hasNode g b = true)
    (hmem : (a, b) ∈ g.follows) :
    upsertFollowsRelationship g a b = (g, [(a, b)]) := by
  simp [upsertFollowsRelationship, ha, hb, hmem]

theorem upsertFollows_of_not_mem {g : GraphState} {a b : Int}
    (ha : hasNode g a = true) (hb : hasNode g b = true)
    (hmem : (a, b) ∉ g.follows) :
    upsertFollowsRelationship g a b
      = ({ g with follows := g.follows ++ [(a, b)] }, [(a, b)]) := by
  simp [upsertFollowsRelationship, ha, hb, hmem]

theorem mem_follows_upsertFollows {g : GraphState} {a b : Int}
    (ha : hasNode g a = true) (hb : hasNode g b = true) :
    (a, b) ∈ ((upsertFollowsRelationship g a b).1).follows := by
  by_cases hmem : (a, b) ∈ g.follows
  · rw [upsertFollows_of_mem ha hb hmem]
    exact hmem
  · rw [upsertFollows_of_not_mem ha hb hmem]
    simp

theorem followsEdgeCount_upsert {g : GraphState} {a b : Int}
    (ha : hasNode g a = true) (hb : hasNode g b = true)
    (hc : followsEdgeCount g a b ≤ 1) :
    followsEdgeCount ((upsertFollowsRelationship g a b).1) a b = 1 := by
  by_cases hmem : (a, b) ∈ g.follows
  · rw [upsertFollows_of_mem ha hb hmem]
    have h1 : 0 < followsEdgeCount g a b := by
      apply List.length_pos_of_mem
      rw [List.mem_filter]
      exact ⟨hmem, by simp⟩
    show followsEdgeCount g a b = 1
    omega
  · rw [upsertFollows_of_not_mem ha hb hmem]
    have h0 : g.follows.filter (fun e => e == (a, b)) = [] := by
      rw [List.filter_eq_nil_iff]
      intro x hx hbx
      exact hmem ((by simpa using hbx : x = (a, b)) ▸ hx)
    unfold followsEdgeCount
    simp [List.filter_append, h0]

theorem upsertInvited_of_mem {g : GraphState} {i u : Int}
    (hi : hasNode g i = true) (hu : hasNode g u = true)
    (hmem : (u, i) ∈ g.invited_by) :
    upsertInvitedByUserRelationship g i u = (g, [(u, i)]) := by
  simp [upsertInvitedByUserRelationship, hi, hu, hmem]

theorem upsertInvited_of_not_mem {g : GraphState} {i u : Int}
    (hi : hasNode g i = true) (hu : hasNode g u = true)
    (hmem : (u, i) ∉ g.invited_by) :
    upsertInvitedByUserRelationship g i u
      = ({ g with invited_by := g.invited_by ++ [(u, i)] }, [(u, i)]) := by
  simp [upsertInvitedByUserRelationship, hi, hu, hmem]

theorem mem_invited_upsertInvited {g : GraphState} {i u : Int}
    (hi : hasNode g i = true) (hu : hasNode g u = true) :
    (u, i) ∈ ((upsertInvitedByUserRelationship g i u).1).invited_by := by
  by_cases hmem : (u, i) ∈ g.invited_by
  · rw [upsertInvited_of_mem hi hu hmem]
    exact hmem
  · rw [upsertInvited_of_not_mem hi hu hmem]
    simp

theorem invitedEdgeCount_upsert {g : GraphState} {i u : Int}
    (hi : hasNode g i = true) (hu : hasNode g u = true)
    (hc : invitedEdgeCount g u i ≤ 1) :
    invitedEdgeCount ((upsertInvitedByUserRelationship g i u).1) u i = 1 := by
  by_cases hmem : (u, i) ∈ g.invited_by
  · rw [upsertInvited_of_mem hi hu hmem]
    have h1 : 0 < invitedEdgeCount g u i := by
      apply List.length_pos_of_mem
      rw [List.mem_filter]
      exact ⟨hmem, by simp⟩
    show invitedEdgeCount g u i = 1
    omega
  · rw [upsertInvited_of_not_mem hi hu hmem]
    have h0 : g.invited_by.filter (fun e => e == (u, i)) = [] := by
      rw [List.filter_eq_nil_iff]
      intro x hx hbx
      exact hmem ((by simpa using hbx : x = (u, i)) ▸ hx)
    unfold invitedEdgeCount
    simp [List.filter_append, h0]

theorem applyFollowsN_nodes (g : GraphState) (a b : Int) (n : Nat) :
    (applyFollowsN g a b n).nodes = g.nodes := by
  induction n with
  | zero => rfl
  | succ k ih => rw [applyFollowsN, upsertFollowsRelationship_nodes, ih]

theorem applyInvitedN_nodes (g : GraphState) (i u : Int) (n : Nat) :
    (applyInvitedN g i u n).nodes = g.nodes := by
  induction n with
  | zero => rfl
  | succ k ih => rw [applyInvitedN, upsertInvitedByUserRelationship_nodes, ih]

theorem applyFollowsN_succ_eq {g : GraphState} {a b : Int}
    (ha : hasNode g a = true) (hb : hasNode g b = true) (m : Nat) :
    applyFollowsN g a b (m + 1) = applyFollowsN g a b 1 := by
  induction m with
  | zero => rfl
  | succ k ih =>
      show (upsertFollowsRelationship (applyFollowsN g a b (k + 1)) a b).1 = _
      rw [ih]
      have hnodes : (applyFollowsN g a b 1).nodes = g.nodes :=
        applyFollowsN_nodes g a b 1
      have ha' : hasNode (applyFollowsN g a b 1) a = true := by
        rw [hasNode_congr hnodes]
        exact ha
      have hb' : hasNode (applyFollowsN g a b 1) b = true := by
        rw [hasNode_congr hnodes]
        exact hb
      have hmem : (a, b) ∈ (applyFollowsN g a b 1).follows :=
        mem_follows_upsertFollows ha hb
      rw [upsertFollows_of_mem ha' hb' hmem]

theorem applyInvitedN_succ_eq {g : GraphState} {i u : Int}
    (hi : hasNode g i = true) (hu : hasNode g u = true) (m : Nat) :
    applyInvitedN g i u (m + 1) = applyInvitedN g i u 1 := by
  induction m with
  | zero => rfl
  | succ k ih =>
      show (upsertInvitedByUserRelationship (applyInvitedN g i u (k + 1)) i u).1 = _
      rw [ih]
      have hnodes : (applyInvitedN g i u 1).nodes = g.nodes :=
        applyInvitedN_nodes g i u 1
      have hi' : hasNode (applyInvitedN g i u 1) i = true := by
        rw [hasNode_congr hnodes]
        exact hi
      have hu' : hasNode (applyInvitedN g i u 1) u = true := by
        rw [hasNode_congr hnodes]
        exact hu
      have hmem : (u, i) ∈ (applyInvitedN g i u 1).invited_by :=
        mem_invited_upsertInvited hi hu
      rw [upsertInvited_of_mem hi' hu' hmem]

/-! ### Pagination helpers -/

theorem pages_flatten {α : Type} (s : List α) (P n : Nat)
    (h : s.length ≤ n * P) :
    ((List.range n).flatMap (fun i => (s.drop (i * P)).take P)) = s := by
  have key : ∀ m : Nat,
      ((List.range m).flatMap (fun i => (s.drop (i * P)).take P))
        = s.take (m * P) := by
    intro m
    induction m with
    | zero => simp
    | succ k ih =>
        rw [List.range_succ, List.flatMap_append, ih]
        simp only [List.flatMap_cons, List.flatMap_nil, List.append_nil]
        rw [Nat.succ_mul, List.take_add]
  rw [key n, List.take_of_length_le h]

theorem followerRows_nodup {g : GraphState} (hg : Invariant g) (u : Int) :
    (followerRows g u).Nodup := by
  unfold followerRows
  split
  · exact nodup_resolveIds _ (nodup_fst_filter_snd hg.2.1 u)
  · simp

theorem followingRows_nodup {g : GraphState} (hg : Invariant g) (u : Int) :
    (followingRows g u).Nodup := by
  unfold followingRows
  split
  · exact nodup_resolveIds _ (nodup_snd_filter_fst hg.2.1 u)
  · simp

theorem invitedRows_nodup {g : GraphState} (hg : Invariant g) (u : Int) :
    (invitedRows g u).Nodup := by
  unfold invitedRows
  split
  · exact nodup_resolveIds _ (nodup_fst_filter_snd hg.2.2.1 u)
  · simp

theorem paginate_sorted (rows : List SocialGraphUserProfile) (L S : Nat) :
    List.Sorted userIdLe (paginate rows L S) := by
  unfold paginate
  have hsorted : List.Sorted userIdLe (List.insertionSort userIdLe rows) :=
    List.sorted_insertionSort userIdLe rows
  exact List.Pairwise.sublist
    ((List.take_sublist _ _).trans (List.drop_sublist _ _)) hsorted

theorem paginate_cover (rows : List SocialGraphUserProfile) (P n : Nat)
    (hrows : rows.Nodup) (hn : rows.length ≤ n * P) :
    List.Perm ((List.range n).flatMap (fun i => paginate rows P (i * P))) rows
  ∧ ((List.range n).flatMap (fun i => paginate rows P (i * P))).Nodup := by
  have hflat : ((List.range n).flatMap (fun i => paginate rows P (i * P)))
      = List.insertionSort userIdLe rows := by
    unfold paginate
    exact pages_flatten _ P n (by rw [List.length_insertionSort]; exact hn)
  rw [hflat]
  exact ⟨List.perm_insertionSort userIdLe rows,
    (List.perm_insertionSort userIdLe rows).nodup_iff.mpr hrows⟩

/-! ### Concrete data for witnesses and counterexamples -/

/-- A concrete user profile with `user_id = 1`. -/
def profileA : SocialGraphUserProfile :=
  { user_id := 1, name := "Alice", photo_url := "http://p/1",
    username := "alice", twitter := "al", bio := "hello",
    displayname := "Alice A", instagram := "ali",
    num_followers := 10, num_following := 5,
    time_created := "2020-04-01T10:00:00Z", is_blocked_by_network := false }

/-- A second payload for `user_id = 1` with different attributes. -/
def profileA2 : SocialGraphUserProfile :=
  { profileA with name := "Mallory", bio := "changed", num_followers := 99 }

/-- A concrete user profile with `user_id = 2`. -/
def profileB : SocialGraphUserProfile :=
  { user_id := 2, name := "Bob", photo_url := "http://p/2",
    username := "bob", twitter := "", bio := "hi",
    displayname := "Bob B", instagram := "",
    num_followers := 3, num_following := 4,
    time_created := "2020-04-02T11:00:00Z", is_blocked_by_network := true }

/-- A concrete user profile with `user_id = 3`. -/
def profileC : SocialGraphUserProfile :=
  { user_id := 3, name := "Carol", photo_url := "http://p/3",
    username := "carol", twitter := "cc", bio := "hey",
    displayname := "Carol C", instagram := "",
    num_followers := 0, num_following := 0,
    time_created := "2020-04-03T12:00:00Z", is_blocked_by_network := false }

/-! ### Claim theorems -/

/-- C1: `upsertUser` is create-only.  If no node with `p.user_id` exists,
one node is created with all of `p`'s attributes set (the `bio` attribute
through the sanitizer, as §4.2 specifies); if a node with `p.user_id`
exists, the call leaves the graph — in particular every attribute of that
node — unchanged (first-write-wins); and after any sequence of `upsertUser`
calls from the empty graph there is at most one node per `user_id`, whose
attributes are those of the first call for that `user_id`. -/
theorem upsertUser_create_only (sanitize : String → String) :
    (∀ g p, hasNode g p.user_id = false →
        (upsertUser sanitize g p).1
          = { g with nodes := g.nodes ++ [storedProfile sanitize p] })
  ∧ (∀ g p, hasNode g p.user_id = true → (upsertUser sanitize g p).1 = g)
  ∧ (∀ (ps : List SocialGraphUserProfile) (id : Int),
        (runUserOps sanitize ps).nodes.countP (fun n => n.user_id == id) ≤ 1
      ∧ (runUserOps sanitize ps).nodes.find? (fun n => n.user_id == id)
          = (ps.find? (fun q => q.user_id == id)).map
              (storedProfile sanitize)) := by
  refine ⟨?_, ?_, ?_⟩
  · intro g p h
    simp [upsertUser, h]
  · intro g p h
    simp [upsertUser, h]
  · intro ps id
    constructor
    · have hinv : Invariant (runUserOps sanitize ps) :=
        invariant_of_reachable ⟨sanitize, ps.map Op.user, rfl⟩
      rw [List.countP_eq_length_filter]
      exact @filter_length_le_one_of_nodup_map SocialGraphUserProfile Int _
        (fun n => n.user_id) _ hinv.1 id
    · rw [runUserOps_eq_foldl, foldl_upsertUser_find?]
      simp [emptyGraph]

/-- Witness for C1: creating user 1, then re-upserting a different payload
for user 1, leaves exactly the first payload in place. -/
theorem upsertUser_create_only_witness :
    ((upsertUser (fun s => s) emptyGraph profileA).1
        = { emptyGraph with
              nodes := emptyGraph.nodes ++ [storedProfile (fun s => s) profileA] })
  ∧ ((upsertUser (fun s => s) (runUserOps (fun s => s) [profileA]) profileA2).1
        = runUserOps (fun s => s) [profileA])
  ∧ (runUserOps (fun s => s) [profileA, profileA2]).nodes.countP
        (fun n => n.user_id == 1) ≤ 1
  ∧ (runUserOps (fun s => s) [profileA, profileA2]).nodes.find?
        (fun n => n.user_id == 1)
      = some (storedProfile (fun s => s) profileA) := by
  refine ⟨?_, ?_, ?_, ?_⟩
  · exact (upsertUser_create_only (fun s => s)).1 emptyGraph profileA (by decide)
  · exact (upsertUser_create_only (fun s => s)).2.1 _ profileA2 (by decide)
  · exact ((upsertUser_create_only (fun s => s)).2.2 [profileA, profileA2] 1).1
  · rw [((upsertUser_create_only (fun s => s)).2.2 [profileA, profileA2] 1).2]
    rfl

/-- C2: if one or both endpoint nodes are missing, both edge upserts
create nothing, change nothing, and return a cursor with zero records;
moreover the cursor is empty exactly when an endpoint is missing, so
emptiness is the caller's only signal. -/
theorem edge_upsert_silent_noop (g : GraphState) (a b : Int) :
    ((hasNode g a = false ∨ hasNode g b = false) →
        upsertFollowsRelationship g a b = (g, [])
      ∧ upsertInvitedByUserRelationship g a b = (g, []))
  ∧ ((upsertFollowsRelationship g a b).2 = []
        ↔ (hasNode g a = false ∨ hasNode g b = false))
  ∧ ((upsertInvitedByUserRelationship g a b).2 = []
        ↔ (hasNode g a = false ∨ hasNode g b = false)) := by
  by_cases ha : hasNode g a = true
  · by_cases hb : hasNode g b = true
    · have hfol : (upsertFollowsRelationship g a b).2 = [(a, b)] := by
        by_cases hmem : (a, b) ∈ g.follows
        · rw [upsertFollows_of_mem ha hb hmem]
        · rw [upsertFollows_of_not_mem ha hb hmem]
      have hinv : (upsertInvitedByUserRelationship g a b).2 = [(b, a)] := by
        by_cases hmem : (b, a) ∈ g.invited_by
        · rw [upsertInvited_of_mem ha hb hmem]
        · rw [upsertInvited_of_not_mem ha hb hmem]
      refine ⟨?_, ?_, ?_⟩
      · intro h
        rcases h with h | h
        · rw [h] at ha
          exact absurd ha (by simp)
        · rw [h] at hb
          exact absurd hb (by simp)
      · rw [hfol]
        simp [ha, hb]
      · rw [hinv]
        simp [ha, hb]
    · simp only [Bool.not_eq_true] at hb
      have hc : (hasNode g a && hasNode g b) = false := by simp [hb]
      have hnofol : upsertFollowsRelationship g a b = (g, []) := by
        simp [upsertFollowsRelationship, hc]
      have hnoinv : upsertInvitedByUserRelationship g a b = (g, []) := by
        simp [upsertInvitedByUserRelationship, hc]
      refine ⟨fun _ => ⟨hnofol, hnoinv⟩, ?_, ?_⟩
      · rw [hnofol]
        simp [hb]
      · rw [hnoinv]
        simp [hb]
  · simp only [Bool.not_eq_true] at ha
    have hc : (hasNode g a && hasNode g b) = false := by simp [ha]
    have hnofol : upsertFollowsRelationship g a b = (g, []) := by
      simp [upsertFollowsRelationship, hc]
    have hnoinv : upsertInvitedByUserRelationship g a b = (g, []) := by
      simp [upsertInvitedByUserRelationship, hc]
    refine ⟨fun _ => ⟨hnofol, hnoinv⟩, ?_, ?_⟩
    · rw [hnofol]
      simp [ha]
    · rw [hnoinv]
      simp [ha]

/-- Concrete one-user graph used by the C2 witness. -/
def stateC2 : GraphState := { nodes := [profileA], follows := [], invited_by := [] }

/-- Witness for C2: with only user 1 present, edge upserts towards the
missing user 99 change nothing and return zero records. -/
theorem edge_upsert_silent_noop_witness :
    upsertFollowsRelationship stateC2 1 99 = (stateC2, [])
  ∧ upsertInvitedByUserRelationship stateC2 1 99 = (stateC2, []) :=
  (edge_upsert_silent_noop stateC2 1 99).1 (Or.inr (by decide))

/-- C4: the driver enables encryption iff the setting is present, non-empty
and not the literal string `"false"`; absent, empty or `"false"` disables
it, and any other non-empty string enables it. -/
theorem driver_encryption_parsing (s : Option String) :
    (driverEncryptedOption s = "ENCRYPTION_ON"
        ↔ ∃ v, s = some v ∧ v ≠ "" ∧ v ≠ "false")
  ∧ (driverEncryptedOption s = "ENCRYPTION_OFF"
        ↔ (s = none ∨ s = some "" ∨ s = some "false"))
  ∧ (isEncrypted s = true ↔ ∃ v, s = some v ∧ v ≠ "" ∧ v ≠ "false") := by
  cases s with
  | none =>
      exact ⟨iff_of_false (by decide) (by simp),
             iff_of_true (by decide) (Or.inl rfl),
             iff_of_false (by decide) (by simp)⟩
  | some v =>
      by_cases h1 : v = ""
      · subst h1
        exact ⟨iff_of_false (by decide) (by simp),
               iff_of_true (by decide) (Or.inr (Or.inl rfl)),
               iff_of_false (by decide) (by simp)⟩
      · by_cases h2 : v = "false"
        · subst h2
          exact ⟨iff_of_false (by decide) (by simp),
                 iff_of_true (by decide) (Or.inr (Or.inr rfl)),
                 iff_of_false (by decide) (by simp)⟩
        · have henc : isEncrypted (some v) = true := by
            simp [isEncrypted, h1, h2]
          refine ⟨iff_of_true ?_ ⟨v, rfl, h1, h2⟩,
                  iff_of_false ?_ ?_,
                  iff_of_true henc ⟨v, rfl, h1, h2⟩⟩
          · simp [driverEncryptedOption, henc]
          · intro hcon
            rw [driverEncryptedOption, henc] at hcon
            exact absurd hcon (by decide)
          · simp [h1, h2]

/-- Witness for C4: a generic non-empty string enables encryption, while
`"false"` and an unset variable disable it. -/
theorem driver_encryption_parsing_witness :
    driverEncryptedOption (some "x") = "ENCRYPTION_ON"
  ∧ driverEncryptedOption (some "false") = "ENCRYPTION_OFF"
  ∧ driverEncryptedOption none = "ENCRYPTION_OFF" :=
  ⟨(driver_encryption_parsing (some "x")).1.mpr ⟨"x", rfl, by decide, by decide⟩,
   (driver_encryption_parsing (some "false")).2.1.mpr (Or.inr (Or.inr rfl)),
   (driver_encryption_parsing none).2.1.mpr (Or.inl rfl)⟩

/-- C3: on a reachable graph with both endpoints present, calling
`upsertFollowsRelationship` (respectively `upsertInvitedByUserRelationship`)
N ≥ 1 times on the same ordered pair leaves exactly one FOLLOWS
(respectively INVITED_BY_USER) edge for that pair, and every call after the
first returns the same state as the first (convergence). -/
theorem edge_upsert_idempotent (g : GraphState) (a b : Int) (n : Nat)
    (hg : Reachable g) (ha : hasNode g a = true) (hb : hasNode g b = true)
    (hn : 1 ≤ n) :
    (followsEdgeCount (applyFollowsN g a b n) a b = 1
      ∧ applyFollowsN g a b n = applyFollowsN g a b 1)
  ∧ (invitedEdgeCount (applyInvitedN g a b n) b a = 1
      ∧ applyInvitedN g a b n = applyInvitedN g a b 1) := by
  obtain ⟨m, rfl⟩ : ∃ m, n = m + 1 := ⟨n - 1, by omega⟩
  have hinv := invariant_of_reachable hg
  have hcf : followsEdgeCount g a b ≤ 1 := by
    unfold followsEdgeCount
    exact filter_beq_length_le_one hinv.2.1 (a, b)
  have hci : invitedEdgeCount g b a ≤ 1 := by
    unfold invitedEdgeCount
    exact filter_beq_length_le_one hinv.2.2.1 (b, a)
  refine ⟨⟨?_, applyFollowsN_succ_eq ha hb m⟩,
          ⟨?_, applyInvitedN_succ_eq ha hb m⟩⟩
  · rw [applyFollowsN_succ_eq ha hb m]
    exact followsEdgeCount_upsert ha hb hcf
  · rw [applyInvitedN_succ_eq ha hb m]
    exact invitedEdgeCount_upsert ha hb hci

/-- Write sequence for the C3 witness: create users 1 and 2. -/
def opsC3 : List Op := [Op.user profileA, Op.user profileB]

/-- Concrete reachable graph for the C3 witness. -/
def stateC3 : GraphState := runOps (fun s => s) opsC3

/-- Witness for C3: upserting the edge three times between users 1 and 2
leaves exactly one edge and the same state as one call. -/
theorem edge_upsert_idempotent_witness :
    (followsEdgeCount (applyFollowsN stateC3 1 2 3) 1 2 = 1
      ∧ applyFollowsN stateC3 1 2 3 = applyFollowsN stateC3 1 2 1)
  ∧ (invitedEdgeCount (applyInvitedN stateC3 1 2 3) 2 1 = 1
      ∧ applyInvitedN stateC3 1 2 3 = applyInvitedN stateC3 1 2 1) :=
  edge_upsert_idempotent stateC3 1 2 3 ⟨(fun s => s), opsC3, rfl⟩
    (by decide) (by decide) (by decide)

/-- C5: on a reachable graph, reading follower (and following) pages of
size P at skips 0, P, 2P, … yields each row exactly once — the pages
together are a duplicate-free permutation of the full row set — with every
page sorted in ascending `user_id`; omitted `limit`/`skip` default to
1000/0. -/
theorem pagination_complete (g : GraphState) (u : Int) (P n : Nat)
    (hg : Reachable g) (_hP : 0 < P)
    (hK : (followerRows g u).length ≤ n * P)
    (hK' : (followingRows g u).length ≤ n * P) :
    List.Perm
        ((List.range n).flatMap (fun i => getUserFollowersById g u P (i * P)))
        (followerRows g u)
  ∧ ((List.range n).flatMap (fun i => getUserFollowersById g u P (i * P))).Nodup
  ∧ (∀ i : Nat, List.Sorted userIdLe (getUserFollowersById g u P (i * P)))
  ∧ getUserFollowersByIdDefault g u = getUserFollowersById g u 1000 0
  ∧ List.Perm
        ((List.range n).flatMap (fun i => getFollowingUsersById g u P (i * P)))
        (followingRows g u)
  ∧ ((List.range n).flatMap (fun i => getFollowingUsersById g u P (i * P))).Nodup
  ∧ (∀ i : Nat, List.Sorted userIdLe (getFollowingUsersById g u P (i * P)))
  ∧ getFollowingUsersByIdDefault g u = getFollowingUsersById g u 1000 0 := by
  have hinv := invariant_of_reachable hg
  have h1 := paginate_cover (followerRows g u) P n (followerRows_nodup hinv u) hK
  have h2 := paginate_cover (followingRows g u) P n (followingRows_nodup hinv u) hK'
  exact ⟨h1.1, h1.2, fun _ => paginate_sorted _ _ _, rfl,
         h2.1, h2.2, fun _ => paginate_sorted _ _ _, rfl⟩

/-- Write sequence for the C5 witness: users 1, 2, 3; users 2 and 3 follow
user 1. -/
def opsC5 : List Op :=
  [Op.user profileA, Op.user profileB, Op.user profileC,
   Op.follows 2 1, Op.follows 3 1]

/-- Concrete reachable graph for the C5 witness. -/
def stateC5 : GraphState := runOps (fun s => s) opsC5

/-- Witness for C5: pages of size 1 at skips 0 and 1 cover user 1's two
followers exactly once, and the default call equals `limit 1000, skip 0`. -/
theorem pagination_complete_witness :
    List.Perm
        ((List.range 2).flatMap (fun i => getUserFollowersById stateC5 1 1 (i * 1)))
        (followerRows stateC5 1)
  ∧ getUserFollowersByIdDefault stateC5 1 = getUserFollowersById stateC5 1 1000 0 := by
  have h := pagination_complete stateC5 1 1 2 ⟨(fun s => s), opsC5, rfl⟩
    (by decide) (by decide) (by decide)
  exact ⟨h.1, h.2.2.2.1⟩

/-- C8: `getNumFollowersById` equals the number of records returned by an
unbounded `getUserFollowersById` (any `limit` at least the follower count,
`skip = 0`) — both count one row per FOLLOWS edge into the user. -/
theorem count_consistency (g : GraphState) (u : Int) (limit : Nat)
    (h : (followerRows g u).length ≤ limit) :
    getNumFollowersById g u = (getUserFollowersById g u limit 0).length := by
  unfold getNumFollowersById getUserFollowersById paginate
  rw [List.drop_zero,
      List.take_of_length_le (by rw [List.length_insertionSort]; exact h),
      List.length_insertionSort]

/-- Witness for C8 on the concrete two-follower graph. -/
theorem count_consistency_witness :
    getNumFollowersById stateC5 1 = (getUserFollowersById stateC5 1 1000 0).length :=
  count_consistency stateC5 1 1000 (by decide)

/-- Write sequence refuting C6: users 1, 2, 3, then user 3 is
invited-by-upserted with two different inviters (1 and 2). -/
def opsC6 : List Op :=
  [Op.user profileA, Op.user profileB, Op.user profileC,
   Op.invited 1 3, Op.invited 2 3]

/-- Concrete reachable graph refuting C6. -/
def stateC6 : GraphState := runOps (fun s => s) opsC6

/-- Counterexample to C6: a graph state reachable from the empty graph
using only this layer's write operations in which
`getNumInvitesForUserById` returns 2 — the write layer does not enforce the
at-most-one-inviter convention. -/
theorem invite_count_counterexample :
    Reachable stateC6 ∧ getNumInvitesForUserById stateC6 3 = 2 :=
  ⟨⟨(fun s => s), opsC6, rfl⟩, by decide⟩

/-- C6 amended: `getNumInvitesForUserById u` is 0 or 1 for every state
reachable by a write sequence that upserts at most one distinct inviter for
`u`; the bound holds by that convention only, not structurally. -/
theorem invite_count_single_inviter (sanitize : String → String)
    (ops : List Op) (u : Int)
    (huniq : ∀ i j : Int, Op.invited i u ∈ ops → Op.invited j u ∈ ops → i = j) :
    getNumInvitesForUserById (runOps sanitize ops) u ≤ 1 := by
  have hinv : Invariant (runOps sanitize ops) :=
    invariant_of_reachable ⟨sanitize, ops, rfl⟩
  unfold getNumInvitesForUserById inviterRows
  split
  · refine le_trans (List.length_filterMap_le _ _) ?_
    rw [List.length_map]
    apply length_le_one_of_nodup_of_all_eq (hinv.2.2.1.filter _)
    intro x hx y hy
    rw [List.mem_filter] at hx hy
    have hx1 : x.1 = u := by simpa using hx.2
    have hy1 : y.1 = u := by simpa using hy.2
    have hxops : Op.invited x.2 x.1 ∈ ops := by
      rcases mem_invited_by_runOpsFrom sanitize ops hx.1 with h | h
      · simp [emptyGraph] at h
      · exact h
    have hyops : Op.invited y.2 y.1 ∈ ops := by
      rcases mem_invited_by_runOpsFrom sanitize ops hy.1 with h | h
      · simp [emptyGraph] at h
      · exact h
    rw [hx1] at hxops
    rw [hy1] at hyops
    have h2 : x.2 = y.2 := huniq x.2 y.2 hxops hyops
    cases x
    cases y
    simp_all
  · simp

/-- Write sequence for the C6-amended witness: a single inviter for user 3. -/
def opsC6w : List Op := [Op.user profileA, Op.user profileC, Op.invited 1 3]

/-- Witness for the amended C6: with one inviter upserted for user 3 the
invite count is at most 1. -/
theorem invite_count_single_inviter_witness :
    getNumInvitesForUserById (runOps (fun s => s) opsC6w) 3 ≤ 1 := by
  apply invite_count_single_inviter (fun s => s) opsC6w 3
  intro i j hi hj
  simp [opsC6w] at hi hj
  omega

/-- Write sequence for C7: user 3 is invited by user 1 (stored edge 3 → 1,
pointing at the inviter). -/
def opsC7 : List Op := [Op.user profileA, Op.user profileC, Op.invited 1 3]

/-- Concrete reachable graph for C7. -/
def stateC7 : GraphState := runOps (fun s => s) opsC7

/-- Counterexample to C7 as stated: `getNumUsersInvitedById 1` is 1 (user 1
invited one user), but the OUTGOING `INVITED_BY_USER` edge count at node 1
is 0 — the code counts the edges arriving at the inviter, not leaving it,
so the claim's "computed as the outgoing edge count" is false. -/
theorem num_users_invited_direction_counterexample :
    Reachable stateC7
  ∧ getNumUsersInvitedById stateC7 1 = 1
  ∧ specOutgoingInvitedCount stateC7 1 = 0
  ∧ getNumUsersInvitedById stateC7 1 ≠ specOutgoingInvitedCount stateC7 1 :=
  ⟨⟨(fun s => s), opsC7, rfl⟩, by decide, by decide, by decide⟩

/-- C7 amended: on reachable graphs `getNumUsersInvitedById id` is the
count of users this id has invited, computed as the INCOMING
INVITED_BY_USER edge count at the inviter node `id`: the edges arriving at
`id` are exactly one per distinct invited user. -/
theorem num_users_invited_incoming (g : GraphState) (id : Int)
    (hg : Reachable g) :
    getNumUsersInvitedById g id
        = (g.invited_by.filter (fun e => e.2 == id)).length
  ∧ ((g.invited_by.filter (fun e => e.2 == id)).map (fun e => e.1)).Nodup
  ∧ (∀ x : Int,
        x ∈ (g.invited_by.filter (fun e => e.2 == id)).map (fun e => e.1)
          ↔ (x, id) ∈ g.invited_by) := by
  have hinv := invariant_of_reachable hg
  refine ⟨?_, nodup_fst_filter_snd hinv.2.2.1 id, ?_⟩
  · unfold getNumUsersInvitedById invitedRows
    split
    · rw [length_filterMap_of_isSome, List.length_map]
      intro fid hfid
      rw [List.mem_map] at hfid
      obtain ⟨e, he, rfl⟩ := hfid
      rw [List.mem_filter] at he
      have hend := (hinv.2.2.2.2 e he.1).1
      rw [List.find?_isSome]
      rw [hasNode_iff] at hend
      obtain ⟨n, hn, hid⟩ := hend
      exact ⟨n, hn, by simp [hid]⟩
    · rename_i hno
      simp only [Bool.not_eq_true] at hno
      have hniledges : g.invited_by.filter (fun e => e.2 == id) = [] := by
        rw [List.filter_eq_nil_iff]
        intro e he hbe
        have hend := (hinv.2.2.2.2 e he).2
        rw [(by simpa using hbe : e.2 = id)] at hend
        exact absurd hend (by simp [hno])
      rw [hniledges]
      simp
  · intro x
    constructor
    · intro hx
      rw [List.mem_map] at hx
      obtain ⟨e, he, hex⟩ := hx
      rw [List.mem_filter] at he
      have he2 : e.2 = id := by simpa using he.2
      have hxe : e = (x, id) := by
        cases e
        simp_all
      exact hxe ▸ he.1
    · intro hx
      rw [List.mem_map]
      refine ⟨(x, id), ?_, rfl⟩
      rw [List.mem_filter]
      exact ⟨hx, by simp⟩

/-- Witness for the amended C7 on the concrete graph. -/
theorem num_users_invited_incoming_witness :
    getNumUsersInvitedById stateC7 1
      = (stateC7.invited_by.filter (fun e => e.2 == 1)).length :=
  (num_users_invited_incoming stateC7 1 ⟨(fun s => s), opsC7, rfl⟩).1

/-- C9: in the three paginated list queries, `limit` and `skip` are
string-interpolated into the query text — for every integer, including
negative ones, so no non-negativity validation happens here — while the
user id is the only value-bound parameter; no `limit`/`skip` key appears in
the parameter map. -/
theorem pagination_bounds_interpolated (userId : String) (limit skip : Int) :
    ((getUserFollowersByIdQuery userId limit skip).text
        = followersQueryPre ++ toString skip ++ skipLimitSep
            ++ toString limit ++ queryTail)
  ∧ ((getFollowingUsersByIdQuery userId limit skip).text
        = followingQueryPre ++ toString skip ++ skipLimitSep
            ++ toString limit ++ queryTail)
  ∧ ((getUsersInvitedByIdQuery userId limit skip).text
        = invitedQueryPre ++ toString skip ++ skipLimitSep
            ++ toString limit ++ queryTail)
  ∧ ((getUserFollowersByIdQuery userId limit skip).params = [("userId", userId)]
      ∧ (getFollowingUsersByIdQuery userId limit skip).params = [("userId", userId)]
      ∧ (getUsersInvitedByIdQuery userId limit skip).params = [("userId", userId)])
  ∧ (∀ kv ∈ (getUserFollowersByIdQuery userId limit skip).params,
        kv.1 ≠ "limit" ∧ kv.1 ≠ "skip") := by
  refine ⟨rfl, rfl, rfl, ⟨rfl, rfl, rfl⟩, ?_⟩
  intro kv hkv
  simp only [getUserFollowersByIdQuery, List.mem_singleton] at hkv
  rw [hkv]
  exact ⟨(by decide : ("userId" : String) ≠ "limit"),
         (by decide : ("userId" : String) ≠ "skip")⟩

/-- Witness for C9: negative bounds are embedded verbatim in the text. -/
theorem pagination_bounds_interpolated_witness :
    (getUserFollowersByIdQuery "7" (-1) (-2)).text
      = followersQueryPre ++ "-2" ++ skipLimitSep ++ "-1" ++ queryTail :=
  (pagination_bounds_interpolated "7" (-1) (-2)).1

set_option maxRecDepth 16384 in
/-- C10: the `upsertUser` query has no RETURN clause, so its cursor always
carries zero records — on creation and on no-op alike, making the two
indistinguishable from the cursor — whereas the edge upserts return a
nonempty record list whenever both endpoints exist. -/
theorem upsertUser_no_records (sanitize : String → String) (g : GraphState)
    (p : SocialGraphUserProfile) (a b : Int) :
    (upsertUser sanitize g p).2 = []
  ∧ ¬ List.IsInfix ("RETURN".toList) ((upsertUserQuery sanitize p).text.toList)
  ∧ (hasNode g a = true → hasNode g b = true →
        (upsertFollowsRelationship g a b).2 ≠ []
      ∧ (upsertInvitedByUserRelationship g a b).2 ≠ []) := by
  refine ⟨?_, ?_, ?_⟩
  · unfold upsertUser
    split <;> rfl
  · show ¬ List.IsInfix ("RETURN".toList) (upsertUserQueryText.toList)
    decide
  · intro ha hb
    constructor
    · by_cases hmem : (a, b) ∈ g.follows
      · rw [upsertFollows_of_mem ha hb hmem]
        simp
      · rw [upsertFollows_of_not_mem ha hb hmem]
        simp
    · by_cases hmem : (b, a) ∈ g.invited_by
      · rw [upsertInvited_of_mem ha hb hmem]
        simp
      · rw [upsertInvited_of_not_mem ha hb hmem]
        simp

/-- Witness for C10: a concrete upsert returns no records while the edge
upserts between two existing users return a record. -/
theorem upsertUser_no_records_witness :
    (upsertUser (fun s => s) stateC3 profileA).2 = []
  ∧ ((upsertFollowsRelationship stateC3 1 2).2 ≠ []
      ∧ (upsertInvitedByUserRelationship stateC3 1 2).2 ≠ []) := by
  have h := upsertUser_no_records (fun s => s) stateC3 profileA 1 2
  exact ⟨h.1, h.2.2 (by decide) (by decide)⟩

end Clubhouse
